import Mathlib

/-!
Shallow embedding of the vedo transformation module
(src/vedo/transformations.py, class LinearTransform).

The class is a thin wrapper around an external 4x4 affine-transform engine
(vtkTransform).  The engine is modelled here as a record holding the current
4x4 homogeneous matrix, the multiplication mode (pre- or post-multiply), the
engine-level inverse flag, and the push/pop stack of saved matrices.  Engine
primitives (Translate, Scale, RotateWXYZ, Concatenate, Inverse, Identity,
Pop, GetPosition, GetScale, SetMatrix, TransformFloatPoint) follow the
standard documented semantics of that engine: with post-multiplication the
new elementary matrix is multiplied on the left of the current matrix, with
pre-multiplication on the right, and points are transformed as homogeneous
column vectors.

Generic (trigonometry-free) operations are stated over an arbitrary field K
so that witnesses can be evaluated on rational inputs; the rotation and
scale-decomposition operations, which use cos, sin and sqrt, are stated over
the real numbers.
-/

abbrev Vec3 (K : Type) := Fin 3 → K

abbrev Mat3 (K : Type) := Matrix (Fin 3) (Fin 3) K

abbrev Mat4 (K : Type) := Matrix (Fin 4) (Fin 4) K

variable {K : Type} [Field K] [DecidableEq K]

/-- Homogeneous 4x4 translation matrix (the matrix the engine concatenates
for a Translate call). -/
def trans4 (v : Vec3 K) : Mat4 K :=
  !![1, 0, 0, v 0; 0, 1, 0, v 1; 0, 0, 1, v 2; 0, 0, 0, 1]

/-- Homogeneous 4x4 scaling matrix (the matrix the engine concatenates for a
Scale call). -/
def scale4 (s : Vec3 K) : Mat4 K :=
  !![s 0, 0, 0, 0; 0, s 1, 0, 0; 0, 0, s 2, 0; 0, 0, 0, 1]

/-- Homogeneous 4x4 lift of a 3x3 linear map (the matrix the engine
concatenates for a rotation call). -/
def rot4 (R : Mat3 K) : Mat4 K :=
  !![R 0 0, R 0 1, R 0 2, 0;
     R 1 0, R 1 1, R 1 2, 0;
     R 2 0, R 2 1, R 2 2, 0;
     0, 0, 0, 1]

/-- Standard quaternion-to-matrix formula, as used by the engine for
axis-angle rotations (quaternion components w, x, y, z). -/
def quatToMat3 (w x y z : K) : Mat3 K :=
  !![w*w + x*x - y*y - z*z, 2*(x*y - w*z), 2*(x*z + w*y);
     2*(x*y + w*z), w*w + y*y - x*x - z*z, 2*(y*z - w*x);
     2*(x*z - w*y), 2*(y*z + w*x), w*w + z*z - x*x - y*y]

/-- Matrix inverse over a field, written with an executable formula
(inverse of the determinant times the adjugate). -/
def mat4inv (A : Mat4 K) : Mat4 K := A.det⁻¹ • A.adjugate

/-- Translation component of a homogeneous matrix: entries (0,3), (1,3),
(2,3).  This is what the engine reports as GetPosition. -/
def matPos (M : Mat4 K) : Vec3 K := fun i => M i.castSucc 3

/-- Matrix built by the constructor and the matrix setter: a fresh
engine 4x4 matrix (initialized to the identity) whose top-left n x n block
is overwritten element-by-element from the nested sequence M, n being the
length of M. -/
def matFromList (M : List (List K)) : Mat4 K :=
  Matrix.of fun i j =>
    if (i : ℕ) < M.length ∧ (j : ℕ) < M.length then (M.getD i []).getD j 0
    else (1 : Mat4 K) i j

/-- State of the external transform engine (vtkTransform): current matrix,
multiplication mode, engine inverse flag, push/pop stack. -/
@[ext]
structure VTKTransform (K : Type) where
  matrix : Mat4 K
  preMultiply : Bool
  engInverseFlag : Bool
  saved : List (Mat4 K)

namespace VTKTransform

/-- Concatenate an elementary matrix following the current multiplication
mode: on the right of the current matrix in pre-multiply mode, on the left in
post-multiply mode. -/
def applyConcat (t : VTKTransform K) (M : Mat4 K) : VTKTransform K :=
  if t.preMultiply then { t with matrix := t.matrix * M }
  else { t with matrix := M * t.matrix }

/-- Engine PostMultiply call: switch the multiplication mode. -/
def postMultiplyOn (t : VTKTransform K) : VTKTransform K :=
  { t with preMultiply := false }

/-- Engine PreMultiply call: switch the multiplication mode. -/
def preMultiplyOn (t : VTKTransform K) : VTKTransform K :=
  { t with preMultiply := true }

/-- Engine Translate call. -/
def translateOp (t : VTKTransform K) (v : Vec3 K) : VTKTransform K :=
  t.applyConcat (trans4 v)

/-- Engine Scale call. -/
def scaleOp (t : VTKTransform K) (s : Vec3 K) : VTKTransform K :=
  t.applyConcat (scale4 s)

/-- Engine Concatenate call with another transform's current matrix. -/
def concatOp (t : VTKTransform K) (M : Mat4 K) : VTKTransform K :=
  t.applyConcat M

/-- Engine Identity call: reset the current matrix to the identity. -/
def identityOp (t : VTKTransform K) : VTKTransform K :=
  { t with matrix := 1 }

/-- Engine Inverse call: replace the matrix by its inverse and toggle the
engine inverse flag. -/
def inverseOp (t : VTKTransform K) : VTKTransform K :=
  { t with matrix := mat4inv t.matrix, engInverseFlag := !t.engInverseFlag }

/-- Engine GetPosition: the translation column of the current matrix. -/
def getPosition (t : VTKTransform K) : Vec3 K := matPos t.matrix

/-- Engine SetMatrix: overwrite the current matrix. -/
def setMatrixOp (t : VTKTransform K) (M : Mat4 K) : VTKTransform K :=
  { t with matrix := M }

/-- Engine Pop: restore the most recently saved matrix, if any. -/
def popOp (t : VTKTransform K) : VTKTransform K :=
  match t.saved with
  | [] => t
  | M :: rest => { t with matrix := M, saved := rest }

end VTKTransform

/-- Freshly constructed engine transform: identity matrix, pre-multiply mode
(the engine default), flags clear, empty stack. -/
def freshVTK : VTKTransform K :=
  { matrix := 1, preMultiply := true, engInverseFlag := false, saved := [] }

/-- State of the Python LinearTransform object: the wrapped engine transform
T plus the inverse_flag attribute. -/
@[ext]
structure LinearTransform (K : Type) where
  T : VTKTransform K
  inverse_flag : Bool

/-- Tail of LinearTransform.__init__ common to every branch:
self.T = T; self.T.PostMultiply(); self.inverse_flag = False. -/
def mkLT (T : VTKTransform K) : LinearTransform K :=
  { T := T.postMultiplyOn, inverse_flag := false }

namespace LinearTransform

/-- LinearTransform() with no argument: wrap a fresh engine transform. -/
def init : LinearTransform K := mkLT freshVTK

/-- LinearTransform(T) for a nested numeric sequence T: copy the n x n
elements into a fresh engine matrix, set it on a fresh engine transform, and
wrap it. -/
def initFromSeq (M : List (List K)) : LinearTransform K :=
  mkLT (freshVTK.setMatrixOp (matFromList M))

/-- LinearTransform.apply_to on a bare coordinate: transform the point by the
current homogeneous matrix and return it (no side effect). -/
def apply_to_point (t : LinearTransform K) (p : Vec3 K) : Vec3 K :=
  fun i => (∑ j : Fin 3, t.T.matrix i.castSucc j.castSucc * p j)
    + t.T.matrix i.castSucc 3

/-- LinearTransform.reset. -/
def reset (t : LinearTransform K) : LinearTransform K :=
  { t with T := t.T.identityOp }

/-- LinearTransform.pop. -/
def pop (t : LinearTransform K) : LinearTransform K :=
  { t with T := t.T.popOp }

/-- LinearTransform.invert: invert the engine transform, then store the
engine inverse flag in inverse_flag. -/
def invert (t : LinearTransform K) : LinearTransform K :=
  let T1 := t.T.inverseOp
  { T := T1, inverse_flag := T1.engInverseFlag }

/-- LinearTransform.compute_inverse: build a new LinearTransform from the
engine inverse.  The first component is self after the call (the method only
reads self), the second is the returned transform. -/
def compute_inverse (t : LinearTransform K) :
    LinearTransform K × LinearTransform K :=
  (t, mkLT { freshVTK with matrix := mat4inv t.T.matrix })

/-- LinearTransform.clone: wrap a deep copy of the engine transform. -/
def clone (t : LinearTransform K) : LinearTransform K := mkLT t.T

/-- LinearTransform.concatenate: optionally switch the engine to pre-multiply
mode, concatenate the other transform's matrix, then unconditionally switch
back to post-multiply mode. -/
def concatenate (t other : LinearTransform K) (pre_multiply : Bool) :
    LinearTransform K :=
  let T1 := if pre_multiply then t.T.preMultiplyOn else t.T
  { t with T := (T1.concatOp other.T.matrix).postMultiplyOn }

/-- LinearTransform.translate. -/
def translate (t : LinearTransform K) (p : Vec3 K) : LinearTransform K :=
  { t with T := t.T.translateOp p }

/-- LinearTransform.set_position (3D branch): translate by the difference
between the desired and the current position. -/
def set_position (t : LinearTransform K) (p : Vec3 K) : LinearTransform K :=
  { t with T := t.T.translateOp (p - t.T.getPosition) }

/-- LinearTransform.matrix getter. -/
def matrix_get (t : LinearTransform K) : Mat4 K := t.T.matrix

/-- LinearTransform.matrix setter: build a fresh engine 4x4 matrix, copy the
n x n elements of M into it, and set it on the engine transform. -/
def matrix_set (t : LinearTransform K) (M : List (List K)) :
    LinearTransform K :=
  { t with T := t.T.setMatrixOp (matFromList M) }

/-- LinearTransform.matrix3x3 getter: top-left 3x3 submatrix. -/
def matrix3x3 (t : LinearTransform K) : Mat3 K :=
  Matrix.of fun i j => t.T.matrix i.castSucc j.castSucc

end LinearTransform

/-- Model of the geometric-object collaborator of apply_to: a point list, the
recorded transform reference, and the three locator caches. -/
structure GeomObject (K : Type) where
  points : List (Vec3 K)
  transform : Option (LinearTransform K)
  point_locator : Option Unit
  cell_locator : Option Unit
  line_locator : Option Unit

/-- LinearTransform.apply_to on a geometric object: record the transform on
the object; if the current matrix equals the identity, stop; otherwise run
every point through the transform, replace the geometry in place, and clear
the three locator caches. -/
def LinearTransform.apply_to_obj (t : LinearTransform K) (obj : GeomObject K) :
    GeomObject K :=
  let obj1 := { obj with transform := some t }
  if t.T.matrix = 1 then obj1
  else
    { obj1 with
      points := obj.points.map t.apply_to_point
      point_locator := none
      cell_locator := none
      line_locator := none }

noncomputable section

/-- Euclidean norm of a 3-vector (np.linalg.norm). -/
def norm3 (v : Vec3 ℝ) : ℝ := Real.sqrt (v 0 ^ 2 + v 1 ^ 2 + v 2 ^ 2)

namespace VTKTransform

/-- Engine RotateWXYZ call: no-op for a zero angle or a zero axis; otherwise
normalize the axis, build the half-angle quaternion, and concatenate the
derived rotation matrix.  The angle argument is in degrees. -/
def rotateWXYZ (t : VTKTransform ℝ) (angle x y z : ℝ) : VTKTransform ℝ :=
  if angle = 0 ∨ (x = 0 ∧ y = 0 ∧ z = 0) then t
  else
    let theta := angle * Real.pi / 180
    let n := norm3 ![x, y, z]
    let w := Real.cos (theta / 2)
    let s := Real.sin (theta / 2)
    t.applyConcat (rot4 (quatToMat3 w (x / n * s) (y / n * s) (z / n * s)))

/-- Engine RotateX call: RotateWXYZ about the axis (1,0,0). -/
def rotateXOp (t : VTKTransform ℝ) (angle : ℝ) : VTKTransform ℝ :=
  t.rotateWXYZ angle 1 0 0

/-- Engine RotateY call: RotateWXYZ about the axis (0,1,0). -/
def rotateYOp (t : VTKTransform ℝ) (angle : ℝ) : VTKTransform ℝ :=
  t.rotateWXYZ angle 0 1 0

/-- Engine RotateZ call: RotateWXYZ about the axis (0,0,1). -/
def rotateZOp (t : VTKTransform ℝ) (angle : ℝ) : VTKTransform ℝ :=
  t.rotateWXYZ angle 0 0 1

/-- Engine GetScale: per-axis scale factors read back as the norms of the
first three columns of the current matrix. -/
def getScale (t : VTKTransform ℝ) : Vec3 ℝ :=
  fun j => Real.sqrt (t.matrix 0 j.castSucc ^ 2 + t.matrix 1 j.castSucc ^ 2
    + t.matrix 2 j.castSucc ^ 2)

end VTKTransform

namespace LinearTransform

/-- LinearTransform.rotate: rotate around an arbitrary axis passing through
an arbitrary point.  Faithful to the source: convert the angle to radians
unless rad is set, normalize the axis, build the rotation matrix R from the
half-angle quaternion, compute the target position rv of the current
position rotated about the point, perform the engine axis-angle rotation
(which rotates about the object's own origin), then translate the position
to rv. -/
def rotate (t : LinearTransform ℝ) (angle : ℝ) (axis point : Vec3 ℝ)
    (rad : Bool) : LinearTransform ℝ :=
  let anglerad := if rad then angle else angle * Real.pi / 180
  let ax : Vec3 ℝ := fun i => axis i / norm3 axis
  let a := Real.cos (anglerad / 2)
  let b := -ax 0 * Real.sin (anglerad / 2)
  let c := -ax 1 * Real.sin (anglerad / 2)
  let d := -ax 2 * Real.sin (anglerad / 2)
  let R : Mat3 ℝ :=
    !![a*a + b*b - c*c - d*d, 2*(b*c + a*d), 2*(b*d - a*c);
       2*(b*c - a*d), a*a + c*c - b*b - d*d, 2*(c*d + a*b);
       2*(b*d + a*c), 2*(c*d - a*b), a*a + d*d - b*b - c*c]
  let rv := R.mulVec (t.T.getPosition - point) + point
  let angledeg := if rad then angle * 180 / Real.pi else angle
  let T1 := t.T.rotateWXYZ angledeg (ax 0) (ax 1) (ax 2)
  { t with T := T1.translateOp (rv - T1.getPosition) }

/-- Coordinate axis selector for LinearTransform._rotatexyz. -/
inductive Axis
  | x
  | y
  | z

/-- LinearTransform._rotatexyz: axis-aligned rotation, optionally around a
pivot point: translate the pivot to the origin, rotate, translate back. -/
def rotatexyz (t : LinearTransform ℝ) (axe : Axis) (angle : ℝ) (rad : Bool)
    (around : Option (Vec3 ℝ)) : LinearTransform ℝ :=
  let angledeg := if rad then angle * 180 / Real.pi else angle
  let rot : VTKTransform ℝ → VTKTransform ℝ := fun T =>
    match axe with
    | .x => T.rotateXOp angledeg
    | .y => T.rotateYOp angledeg
    | .z => T.rotateZOp angledeg
  match around with
  | none => { t with T := rot t.T }
  | some q => { t with T := (rot (t.T.translateOp (-q))).translateOp q }

/-- LinearTransform.rotate_x. -/
def rotate_x (t : LinearTransform ℝ) (angle : ℝ) (rad : Bool)
    (around : Option (Vec3 ℝ)) : LinearTransform ℝ :=
  t.rotatexyz .x angle rad around

/-- LinearTransform.rotate_y. -/
def rotate_y (t : LinearTransform ℝ) (angle : ℝ) (rad : Bool)
    (around : Option (Vec3 ℝ)) : LinearTransform ℝ :=
  t.rotatexyz .y angle rad around

/-- LinearTransform.rotate_z. -/
def rotate_z (t : LinearTransform ℝ) (angle : ℝ) (rad : Bool)
    (around : Option (Vec3 ℝ)) : LinearTransform ℝ :=
  t.rotatexyz .z angle rad around

/-- Value passed for the origin argument of LinearTransform.scale: the
boolean True (default), a falsy value, or an explicit 3-vector pivot. -/
inductive ScaleOrigin
  | current
  | world
  | pivot (q : Vec3 ℝ)

/-- LinearTransform.scale, sequence branch for the factors.  Faithful to the
source: for origin=True, scale about the current position when it is
nonzero; for a sequence origin the source translates by the current position
p (not by the supplied pivot, which is read but never used); otherwise scale
directly. -/
def scale (t : LinearTransform ℝ) (s : Vec3 ℝ) (origin : ScaleOrigin) :
    LinearTransform ℝ :=
  match origin with
  | .current =>
    let p := t.T.getPosition
    if norm3 p > 0 then
      { t with T := ((t.T.translateOp (-p)).scaleOp s).translateOp p }
    else
      { t with T := t.T.scaleOp s }
  | .pivot _ =>
    let p := t.T.getPosition
    { t with T := ((t.T.translateOp (-p)).scaleOp s).translateOp p }
  | .world => { t with T := t.T.scaleOp s }

/-- LinearTransform.scale, scalar branch: broadcast the factor to the three
axes. -/
def scaleScalar (t : LinearTransform ℝ) (s : ℝ) (origin : ScaleOrigin) :
    LinearTransform ℝ :=
  t.scale ![s, s, s] origin

/-- LinearTransform.set_scale, sequence branch: read the current per-axis
scale b, divide the desired scale by it axis-by-axis leaving untouched (at
factor 1) every axis whose current scale is zero, then apply the corrective
engine Scale call. -/
def set_scale (t : LinearTransform ℝ) (s : Vec3 ℝ) : LinearTransform ℝ :=
  let b := t.T.getScale
  let s0 := if b 0 = 0 then 1 else s 0 / b 0
  let s1 := if b 1 = 0 then 1 else s 1 / b 1
  let s2 := if b 2 = 0 then 1 else s 2 / b 2
  { t with T := t.T.scaleOp ![s0, s1, s2] }

/-- LinearTransform.set_scale, scalar branch: broadcast the desired scale to
the three axes. -/
def setScaleScalar (t : LinearTransform ℝ) (s : ℝ) : LinearTransform ℝ :=
  t.set_scale ![s, s, s]

/-- LinearTransform.get_scale. -/
def get_scale (t : LinearTransform ℝ) : Vec3 ℝ := t.T.getScale

/-- LinearTransform.position property. -/
def position (t : LinearTransform K) : Vec3 K := t.T.getPosition

end LinearTransform

end

/-! Helper lemmas about the elementary matrices. -/

theorem trans4_mul (v w : Vec3 K) : trans4 v * trans4 w = trans4 (v + w) := by
  ext i j
  fin_cases i <;> fin_cases j <;>
    simp [trans4, Matrix.mul_apply, Fin.sum_univ_four, Matrix.vecHead,
      Matrix.vecTail] <;> try ring

theorem trans4_zero : trans4 (0 : Vec3 K) = 1 := by
  ext i j
  fin_cases i <;> fin_cases j <;>
    simp [trans4, Matrix.one_apply, Matrix.vecHead, Matrix.vecTail]

theorem rot4_mul (A B : Mat3 K) : rot4 A * rot4 B = rot4 (A * B) := by
  ext i j
  fin_cases i <;> fin_cases j <;>
    simp [rot4, Matrix.mul_apply, Fin.sum_univ_four, Fin.sum_univ_three,
      Matrix.vecHead, Matrix.vecTail]

theorem rot4_one : rot4 (1 : Mat3 K) = 1 := by
  ext i j
  fin_cases i <;> fin_cases j <;>
    simp [rot4, Matrix.one_apply, Matrix.vecHead, Matrix.vecTail]

theorem rot4_mul_trans4 (A : Mat3 K) (v : Vec3 K) :
    rot4 A * trans4 v = trans4 (A.mulVec v) * rot4 A := by
  ext i j
  fin_cases i <;> fin_cases j <;>
    simp [rot4, trans4, Matrix.mul_apply, Matrix.mulVec, Matrix.dotProduct,
      Fin.sum_univ_four, Fin.sum_univ_three, Matrix.vecHead, Matrix.vecTail]
      <;> try ring

theorem scale4_mul (v w : Vec3 K) : scale4 v * scale4 w = scale4 (v * w) := by
  ext i j
  fin_cases i <;> fin_cases j <;>
    simp [scale4, Matrix.mul_apply, Fin.sum_univ_four, Matrix.vecHead,
      Matrix.vecTail]

theorem quat_conj_mul (w x y z : K) :
    quatToMat3 w (-x) (-y) (-z) * quatToMat3 w x y z
      = ((w^2 + x^2 + y^2 + z^2)^2) • (1 : Mat3 K) := by
  ext i j
  fin_cases i <;> fin_cases j <;>
    simp [quatToMat3, Matrix.mul_apply, Fin.sum_univ_three, Matrix.one_apply,
      Matrix.vecHead, Matrix.vecTail] <;> ring

theorem quatToMat3_id : quatToMat3 (1 : K) 0 0 0 = 1 := by
  ext i j
  fin_cases i <;> fin_cases j <;>
    simp [quatToMat3, Matrix.one_apply, Matrix.vecHead, Matrix.vecTail]

theorem matPos_rot4_mul (R : Mat3 K) (M : Mat4 K) :
    matPos (rot4 R * M) = R.mulVec (matPos M) := by
  funext i
  fin_cases i <;>
    simp [matPos, rot4, Matrix.mul_apply, Matrix.mulVec, Matrix.dotProduct,
      Fin.sum_univ_four, Fin.sum_univ_three, Matrix.vecHead, Matrix.vecTail,
      Fin.castSucc, Fin.castAdd, Fin.castLE]

theorem mat4inv_eq_inv (A : Mat4 K) : mat4inv A = A⁻¹ := by
  rw [mat4inv, Matrix.inv_def, Ring.inverse_eq_inv]

/-! Claim theorems. -/

/-- C4: concatenate with pre_multiply reverses the multiply order only for
that single call (the result is current * other instead of other * current),
restores post-multiply mode afterwards, and a subsequent concatenate call
without the flag composes in post-multiply order. -/
theorem claim_c4 (t o1 o2 : LinearTransform K) :
    (t.concatenate o1 true).T.matrix = t.T.matrix * o1.T.matrix
    ∧ (t.concatenate o1 true).T.preMultiply = false
    ∧ ((t.concatenate o1 true).concatenate o2 false).T.matrix
        = o2.T.matrix * (t.T.matrix * o1.T.matrix) := by
  exact ⟨rfl, rfl, rfl⟩

/-- C3: for a transform with an invertible matrix, invert applied twice
returns the matrix to its original value; compute_inverse leaves self
unchanged and returns a transform whose matrix is a left inverse of the
original matrix. -/
theorem claim_c3 (t : LinearTransform K) (h : IsUnit t.T.matrix.det) :
    t.invert.invert.T.matrix = t.T.matrix
    ∧ t.compute_inverse.1 = t
    ∧ t.compute_inverse.2.T.matrix * t.T.matrix = 1 := by
  refine ⟨?_, rfl, ?_⟩
  · show mat4inv (mat4inv t.T.matrix) = t.T.matrix
    rw [mat4inv_eq_inv, mat4inv_eq_inv, Matrix.nonsing_inv_nonsing_inv _ h]
  · show mat4inv t.T.matrix * t.T.matrix = 1
    rw [mat4inv_eq_inv, Matrix.nonsing_inv_mul _ h]

/-- Witness for C3 at the identity transform over the rationals. -/
theorem claim_c3_witness :
    (LinearTransform.init : LinearTransform ℚ).invert.invert.T.matrix
        = (LinearTransform.init : LinearTransform ℚ).T.matrix
    ∧ (LinearTransform.init : LinearTransform ℚ).compute_inverse.1
        = LinearTransform.init
    ∧ (LinearTransform.init : LinearTransform ℚ).compute_inverse.2.T.matrix
        * (LinearTransform.init : LinearTransform ℚ).T.matrix = 1 :=
  claim_c3 LinearTransform.init
    (by rw [show (LinearTransform.init : LinearTransform ℚ).T.matrix = 1
          from rfl]; simp)

/-- C6: constructing with no argument yields the identity matrix; a 4x4
nested sequence is copied element-by-element; a 3x3 nested sequence fills
the top-left block while the fourth row and column keep their
identity-homogeneous values; in every case the multiplication mode ends up
post-multiply. -/
theorem claim_c6 :
    ((LinearTransform.init : LinearTransform K).T.matrix = 1
      ∧ (LinearTransform.init : LinearTransform K).T.preMultiply = false)
    ∧ (∀ M : List (List K), M.length = 4 →
        (∀ i j : Fin 4, (LinearTransform.initFromSeq M).T.matrix i j
            = (M.getD i []).getD j 0)
        ∧ (LinearTransform.initFromSeq M).T.preMultiply = false)
    ∧ (∀ M : List (List K), M.length = 3 →
        (∀ i j : Fin 3,
          (LinearTransform.initFromSeq M).T.matrix i.castSucc j.castSucc
            = (M.getD i []).getD j 0)
        ∧ (∀ i : Fin 4,
            (LinearTransform.initFromSeq M).T.matrix i 3 = (1 : Mat4 K) i 3
            ∧ (LinearTransform.initFromSeq M).T.matrix 3 i = (1 : Mat4 K) 3 i)
        ∧ (LinearTransform.initFromSeq M).T.preMultiply = false) := by
  refine ⟨⟨rfl, rfl⟩, ?_, ?_⟩
  · intro M hM
    refine ⟨?_, rfl⟩
    intro i j
    show matFromList M i j = _
    rw [matFromList]
    simp only [Matrix.of_apply, hM]
    rw [if_pos ⟨i.isLt, j.isLt⟩]
  · intro M hM
    refine ⟨?_, ?_, rfl⟩
    · intro i j
      show matFromList M i.castSucc j.castSucc = _
      rw [matFromList]
      simp only [Matrix.of_apply, hM, Fin.coe_castSucc]
      rw [if_pos ⟨i.isLt, j.isLt⟩]
    · intro i
      constructor
      · show matFromList M i 3 = _
        rw [matFromList]
        simp only [Matrix.of_apply, hM]
        rw [if_neg]
        intro hc
        exact absurd hc.2 (by rw [show ((3 : Fin 4) : ℕ) = 3 from rfl]; omega)
      · show matFromList M 3 i = _
        rw [matFromList]
        simp only [Matrix.of_apply, hM]
        rw [if_neg]
        intro hc
        exact absurd hc.1 (by rw [show ((3 : Fin 4) : ℕ) = 3 from rfl]; omega)

/-- Witness for C6 on a concrete 3x3 rational sequence: the top-left block
is copied and the fourth row and column are identity-homogeneous. -/
theorem claim_c6_witness :
    ((LinearTransform.initFromSeq [[2,3,4],[5,6,7],[8,9,10]]
        : LinearTransform ℚ).T.matrix (0 : Fin 3).castSucc
          (1 : Fin 3).castSucc = 3)
    ∧ ((LinearTransform.initFromSeq [[2,3,4],[5,6,7],[8,9,10]]
        : LinearTransform ℚ).T.matrix 0 3 = 0)
    ∧ ((LinearTransform.initFromSeq [[2,3,4],[5,6,7],[8,9,10]]
        : LinearTransform ℚ).T.matrix 3 3 = 1) := by
  have h := (claim_c6 (K := ℚ)).2.2 [[2,3,4],[5,6,7],[8,9,10]] rfl
  refine ⟨by simpa using h.1 0 1, ?_, ?_⟩
  · have := (h.2.1 0).1
    simpa using this
  · have := (h.2.1 3).1
    simpa using this

/-- C9: assigning a 3x3 array through the matrix setter builds a fresh 4x4
matrix carrying only the supplied top-left 3x3 block, so the translation
column and the last row are reset to identity values whatever the previous
state was. -/
theorem claim_c9 (t : LinearTransform K) (M : List (List K))
    (hM : M.length = 3) :
    (∀ i j : Fin 3, (t.matrix_set M).T.matrix i.castSucc j.castSucc
        = (M.getD i []).getD j 0)
    ∧ (∀ i : Fin 4, (t.matrix_set M).T.matrix i 3 = (1 : Mat4 K) i 3
        ∧ (t.matrix_set M).T.matrix 3 i = (1 : Mat4 K) 3 i) := by
  constructor
  · intro i j
    show matFromList M i.castSucc j.castSucc = _
    rw [matFromList]
    simp only [Matrix.of_apply, hM, Fin.coe_castSucc]
    rw [if_pos ⟨i.isLt, j.isLt⟩]
  · intro i
    constructor
    · show matFromList M i 3 = _
      rw [matFromList]
      simp only [Matrix.of_apply, hM]
      rw [if_neg]
      intro hc
      exact absurd hc.2 (by rw [show ((3 : Fin 4) : ℕ) = 3 from rfl]; omega)
    · show matFromList M 3 i = _
      rw [matFromList]
      simp only [Matrix.of_apply, hM]
      rw [if_neg]
      intro hc
      exact absurd hc.1 (by rw [show ((3 : Fin 4) : ℕ) = 3 from rfl]; omega)

/-- Witness for C9: setting a 3x3 matrix on a transform that had a nonzero
translation resets the translation column and the last row. -/
theorem claim_c9_witness :
    (((LinearTransform.init : LinearTransform ℚ).translate
        ![5,6,7]).matrix_set [[1,2,3],[4,5,6],[7,8,9]]).T.matrix 0 3 = 0
    ∧ (((LinearTransform.init : LinearTransform ℚ).translate
        ![5,6,7]).matrix_set [[1,2,3],[4,5,6],[7,8,9]]).T.matrix 3 3 = 1
    ∧ (((LinearTransform.init : LinearTransform ℚ).translate
        ![5,6,7]).matrix_set [[1,2,3],[4,5,6],[7,8,9]]).T.matrix
          (1 : Fin 3).castSucc (2 : Fin 3).castSucc = 6 := by
  have h := claim_c9 ((LinearTransform.init : LinearTransform ℚ).translate
    ![5,6,7]) [[1,2,3],[4,5,6],[7,8,9]] rfl
  refine ⟨by simpa using (h.2 0).1, by simpa using (h.2 3).1,
    by simpa using h.1 1 2⟩

/-- C10: every newly constructed transform (no-argument constructor,
constructor from a sequence, clone, computed inverse) has inverse_flag
false, whatever the flag of the transform it came from; every operation
other than invert preserves inverse_flag; invert sets it to the toggled
engine flag. -/
theorem claim_c10 :
    ((LinearTransform.init : LinearTransform ℝ).inverse_flag = false)
    ∧ (∀ M : List (List ℝ),
        (LinearTransform.initFromSeq M).inverse_flag = false)
    ∧ (∀ t : LinearTransform ℝ, t.clone.inverse_flag = false)
    ∧ (∀ t : LinearTransform ℝ, t.compute_inverse.2.inverse_flag = false)
    ∧ (∀ t : LinearTransform ℝ, t.invert.inverse_flag = !t.T.engInverseFlag)
    ∧ (∀ (t : LinearTransform ℝ) (v : Vec3 ℝ),
        (t.translate v).inverse_flag = t.inverse_flag)
    ∧ (∀ t : LinearTransform ℝ, t.reset.inverse_flag = t.inverse_flag)
    ∧ (∀ t : LinearTransform ℝ, t.pop.inverse_flag = t.inverse_flag)
    ∧ (∀ (t o : LinearTransform ℝ) (b : Bool),
        (t.concatenate o b).inverse_flag = t.inverse_flag)
    ∧ (∀ (t : LinearTransform ℝ) (p : Vec3 ℝ),
        (t.set_position p).inverse_flag = t.inverse_flag)
    ∧ (∀ (t : LinearTransform ℝ) (M : List (List ℝ)),
        (t.matrix_set M).inverse_flag = t.inverse_flag)
    ∧ (∀ (t : LinearTransform ℝ) (s : Vec3 ℝ)
        (o : LinearTransform.ScaleOrigin),
        (t.scale s o).inverse_flag = t.inverse_flag)
    ∧ (∀ (t : LinearTransform ℝ) (s : Vec3 ℝ),
        (t.set_scale s).inverse_flag = t.inverse_flag)
    ∧ (∀ (t : LinearTransform ℝ) (angle : ℝ) (axis point : Vec3 ℝ)
        (rad : Bool),
        (t.rotate angle axis point rad).inverse_flag = t.inverse_flag)
    ∧ (∀ (t : LinearTransform ℝ) (axe : LinearTransform.Axis) (angle : ℝ)
        (rad : Bool) (around : Option (Vec3 ℝ)),
        (t.rotatexyz axe angle rad around).inverse_flag = t.inverse_flag) := by
  refine ⟨rfl, fun M => rfl, fun t => rfl, fun t => rfl, fun t => rfl,
    fun t v => rfl, fun t => rfl, fun t => rfl, fun t o b => rfl,
    fun t p => rfl, fun t M => rfl, ?_, fun t s => rfl,
    fun t a ax p r => rfl, ?_⟩
  · intro t s o
    cases o with
    | current =>
      simp only [LinearTransform.scale]
      split <;> rfl
    | world => rfl
    | pivot q => rfl
  · intro t axe angle rad around
    cases around <;> rfl

/-- C5: apply_to on a geometric object records the transform reference; when
the current matrix is the identity it leaves the geometry and every locator
cache untouched (and indeed transforms every point to itself); otherwise it
replaces the geometry by the transformed points and clears the three locator
caches. -/
theorem claim_c5 (t : LinearTransform K) (obj : GeomObject K) :
    (t.T.matrix = 1 →
      (t.apply_to_obj obj).points = obj.points
      ∧ (t.apply_to_obj obj).point_locator = obj.point_locator
      ∧ (t.apply_to_obj obj).cell_locator = obj.cell_locator
      ∧ (t.apply_to_obj obj).line_locator = obj.line_locator
      ∧ (t.apply_to_obj obj).transform = some t
      ∧ ∀ p : Vec3 K, t.apply_to_point p = p)
    ∧ (t.T.matrix ≠ 1 →
      (t.apply_to_obj obj).points = obj.points.map t.apply_to_point
      ∧ (t.apply_to_obj obj).point_locator = none
      ∧ (t.apply_to_obj obj).cell_locator = none
      ∧ (t.apply_to_obj obj).line_locator = none
      ∧ (t.apply_to_obj obj).transform = some t) := by
  constructor
  · intro h
    have he : t.apply_to_obj obj = { obj with transform := some t } := by
      simp only [LinearTransform.apply_to_obj]
      rw [if_pos h]
    refine ⟨by rw [he], by rw [he], by rw [he], by rw [he], by rw [he], ?_⟩
    intro p
    funext i
    have h3 : i.castSucc ≠ (3 : Fin 4) :=
      ne_of_lt (by rw [show (3 : Fin 4) = Fin.last 3 from rfl]
                   exact Fin.castSucc_lt_last i)
    rw [LinearTransform.apply_to_point]
    rw [h]
    simp [Matrix.one_apply, Fin.castSucc_inj, h3]
  · intro h
    have he : t.apply_to_obj obj
        = { obj with
            transform := some t
            points := obj.points.map t.apply_to_point
            point_locator := none
            cell_locator := none
            line_locator := none } := by
      simp only [LinearTransform.apply_to_obj]
      rw [if_neg h]
    exact ⟨by rw [he], by rw [he], by rw [he], by rw [he], by rw [he]⟩

/-- Witness for C5 over the rationals: the identity transform leaves a
concrete object's points and caches untouched, and a pure translation
clears the point locator cache. -/
theorem claim_c5_witness :
    (((LinearTransform.init : LinearTransform ℚ).apply_to_obj
        ⟨[![1,2,3]], none, some (), some (), some ()⟩).points
      = (⟨[![1,2,3]], none, some (), some (), some ()⟩ : GeomObject ℚ).points)
    ∧ ((((LinearTransform.init : LinearTransform ℚ).translate
        ![1,0,0]).apply_to_obj
          ⟨[![1,2,3]], none, some (), some (), some ()⟩).point_locator
      = none) := by
  constructor
  · exact ((claim_c5 LinearTransform.init
      ⟨[![1,2,3]], none, some (), some (), some ()⟩).1 rfl).1
  · refine (((claim_c5 ((LinearTransform.init : LinearTransform ℚ).translate
      ![1,0,0]) ⟨[![1,2,3]], none, some (), some (), some ()⟩).2 ?_).2).1
    have h0 : ((LinearTransform.init : LinearTransform ℚ).translate
        ![1,0,0]).T.matrix 0 3 = 1 := by
      show ((trans4 (![1,0,0] : Vec3 ℚ) * 1 : Mat4 ℚ)) 0 3 = 1
      rw [mul_one]
      norm_num [trans4]
    intro hc
    rw [hc, Matrix.one_apply_ne (by decide)] at h0
    exact absurd h0 (by norm_num)

theorem matPos_one : matPos (1 : Mat4 K) = 0 := by
  funext i
  fin_cases i <;>
    simp [matPos, Matrix.one_apply, Fin.castSucc, Fin.castAdd, Fin.castLE]

/-- C1: evaluation of the code at the spec's example.  On a fresh identity
transform, scale(2, origin=[1,0,0]) followed by apply_to on the point
(2,0,0) returns (4,0,0), not the (3,0,0) required by the claim: in the
explicit-pivot branch the source translates by the transform's current
position instead of by the supplied pivot, so the result does not depend on
the pivot at all (third conjunct). -/
theorem claim_c1_code_bug :
    ((LinearTransform.init : LinearTransform ℝ).scale ![2,2,2]
        (.pivot ![1,0,0])).apply_to_point ![2,0,0] = ![4,0,0]
    ∧ ((LinearTransform.init : LinearTransform ℝ).scale ![2,2,2]
        (.pivot ![1,0,0])).apply_to_point ![2,0,0] ≠ ![3,0,0]
    ∧ ∀ (t : LinearTransform ℝ) (s q q' : Vec3 ℝ),
        t.scale s (.pivot q) = t.scale s (.pivot q') := by
  have hm : ((LinearTransform.init : LinearTransform ℝ).scale ![2,2,2]
      (.pivot ![1,0,0])).T.matrix = scale4 ![2,2,2] := by
    show trans4 (matPos (1 : Mat4 ℝ))
        * (scale4 ![2,2,2] * (trans4 (-(matPos (1 : Mat4 ℝ))) * 1))
      = scale4 ![2,2,2]
    rw [matPos_one, neg_zero, trans4_zero, mul_one, one_mul, mul_one]
  have heval : ((LinearTransform.init : LinearTransform ℝ).scale ![2,2,2]
      (.pivot ![1,0,0])).apply_to_point ![2,0,0] = ![4,0,0] := by
    funext i
    rw [LinearTransform.apply_to_point, hm]
    fin_cases i <;>
      simp [scale4, Fin.sum_univ_three, Fin.castSucc, Fin.castAdd,
        Fin.castLE, Matrix.vecHead, Matrix.vecTail] <;> norm_num
  refine ⟨heval, ?_, fun t s q q' => rfl⟩
  rw [heval]
  intro hc
  have h0 := congrFun hc 0
  simp [Matrix.vecHead, Matrix.vecTail] at h0

/-- C7: set_scale computes correction factors by dividing the desired scale
by the current per-axis scale, leaves untouched every axis whose current
scale is zero (no division by zero can occur), and applies the corrective
scale: on a transform whose matrix is a nonnegative diagonal scaling, the
resulting matrix carries the desired scale on every axis of nonzero current
scale and keeps the zero axes at zero; the scalar branch broadcasts the
desired scale to the three axes. -/
theorem claim_c7 (b s : Vec3 ℝ) (hb : ∀ i, 0 ≤ b i) (t : LinearTransform ℝ)
    (hmat : t.T.matrix = scale4 b) (hpre : t.T.preMultiply = false) :
    (t.set_scale s).T.matrix = scale4 (fun i => if b i = 0 then 0 else s i)
    ∧ (t.setScaleScalar (s 0)).T.matrix
      = scale4 (fun i => if b i = 0 then 0 else s 0) := by
  have hgs : t.T.getScale = b := by
    funext j
    fin_cases j <;>
      simp [VTKTransform.getScale, hmat, scale4, Fin.castSucc, Fin.castAdd,
        Fin.castLE, Matrix.vecHead, Matrix.vecTail, Real.sqrt_sq_eq_abs] <;>
      exact hb _
  have key : ∀ s' : Vec3 ℝ, (t.set_scale s').T.matrix
      = scale4 (fun i => if b i = 0 then 0 else s' i) := by
    intro s'
    simp only [LinearTransform.set_scale, hgs, VTKTransform.scaleOp,
      VTKTransform.applyConcat, hpre, Bool.false_eq_true, if_false, hmat,
      scale4_mul]
    apply congrArg scale4
    funext i
    fin_cases i
    · by_cases h : b 0 = 0 <;>
        simp [h, div_mul_cancel₀, Pi.mul_apply, Matrix.vecHead,
          Matrix.vecTail]
    · by_cases h : b 1 = 0 <;>
        simp [h, div_mul_cancel₀, Pi.mul_apply, Matrix.vecHead,
          Matrix.vecTail]
    · by_cases h : b 2 = 0 <;>
        simp [h, div_mul_cancel₀, Pi.mul_apply, Matrix.vecHead,
          Matrix.vecTail]
  refine ⟨key s, ?_⟩
  rw [show t.setScaleScalar (s 0) = t.set_scale ![s 0, s 0, s 0] from rfl,
    key ![s 0, s 0, s 0]]
  apply congrArg scale4
  funext i
  fin_cases i <;> simp [Matrix.vecHead, Matrix.vecTail]

/-- Witness for C7 on a concrete diagonal state: current scale (2,0,3),
desired scale (5,7,11); axes 0 and 2 are corrected to 5 and 11, the
degenerate axis 1 is left at zero. -/
theorem claim_c7_witness :
    ((⟨⟨scale4 ![2,0,3], false, false, []⟩, false⟩
        : LinearTransform ℝ).set_scale ![5,7,11]).T.matrix
      = scale4 ![5,0,11] := by
  have h := (claim_c7 ![2,0,3] ![5,7,11]
    (by intro i; fin_cases i <;> norm_num)
    ⟨⟨scale4 ![2,0,3], false, false, []⟩, false⟩ rfl rfl).1
  rw [h]
  apply congrArg scale4
  funext i
  fin_cases i <;> norm_num [Matrix.vecHead, Matrix.vecTail]

/-- C8: on a fresh identity transform, rotate_x by 90 degrees followed by
apply_to on the bare point (0,1,0) returns (0,0,1), the right-hand rule
rotation about the x-axis. -/
theorem claim_c8 :
    ((LinearTransform.init : LinearTransform ℝ).rotate_x 90 false
        none).apply_to_point ![0,1,0] = ![0,0,1] := by
  have hn : norm3 ![(1:ℝ),0,0] = 1 := by
    simp [norm3, Matrix.vecHead, Matrix.vecTail]
  have hm : ((LinearTransform.init : LinearTransform ℝ).rotate_x 90 false
      none).T.matrix
      = rot4 (quatToMat3 (Real.cos (Real.pi/4)) (Real.sin (Real.pi/4)) 0 0)
      := by
    show (VTKTransform.rotateWXYZ
        (LinearTransform.init : LinearTransform ℝ).T 90 1 0 0).matrix = _
    rw [VTKTransform.rotateWXYZ]
    rw [if_neg (by norm_num)]
    simp only [hn, VTKTransform.applyConcat]
    rw [if_neg (by rw [show (LinearTransform.init
      : LinearTransform ℝ).T.preMultiply = false from rfl]; simp)]
    have ha : (90:ℝ) * Real.pi / 180 / 2 = Real.pi / 4 := by ring
    rw [ha]
    norm_num
    rw [show (LinearTransform.init : LinearTransform ℝ).T.matrix = 1
      from rfl, mul_one]
  funext i
  rw [LinearTransform.apply_to_point, hm]
  have hc4 : Real.cos (Real.pi/4) = Real.sqrt 2 / 2 := Real.cos_pi_div_four
  have hs4 : Real.sin (Real.pi/4) = Real.sqrt 2 / 2 := Real.sin_pi_div_four
  have h2 : Real.sqrt 2 * Real.sqrt 2 = 2 :=
    Real.mul_self_sqrt (by norm_num)
  fin_cases i <;>
    simp [rot4, quatToMat3, Fin.sum_univ_three, Fin.castSucc, Fin.castAdd,
      Fin.castLE, Matrix.vecHead, Matrix.vecTail, hc4, hs4] <;>
    nlinarith [h2]

theorem vec3_eta (v : Vec3 K) : ![v 0, v 1, v 2] = v := by
  funext i
  fin_cases i <;> rfl

/-- Rotation matrix by theta radians about the axis u built from the
half-angle quaternion; both the source's Python-side formula and the
engine's RotateWXYZ produce this matrix for a unit axis. -/
noncomputable def rotMat (theta : ℝ) (u : Vec3 ℝ) : Mat3 ℝ :=
  quatToMat3 (Real.cos (theta / 2)) (u 0 * Real.sin (theta / 2))
    (u 1 * Real.sin (theta / 2)) (u 2 * Real.sin (theta / 2))

theorem pyR_eq_quatToMat3 (a b c d : K) :
    !![a*a + b*b - c*c - d*d, 2*(b*c + a*d), 2*(b*d - a*c);
       2*(b*c - a*d), a*a + c*c - b*b - d*d, 2*(c*d + a*b);
       2*(b*d + a*c), 2*(c*d - a*b), a*a + d*d - b*b - c*c]
      = quatToMat3 a (-b) (-c) (-d) := by
  ext i j
  fin_cases i <;> fin_cases j <;>
    simp only [quatToMat3, Matrix.of_apply, Matrix.cons_val',
      Matrix.cons_val_zero, Matrix.cons_val_one, Matrix.head_cons,
      Matrix.empty_val', Matrix.cons_val_fin_one, Matrix.head_fin_const,
      Matrix.vecHead, Matrix.vecTail, Function.comp_apply] <;>
    ring

theorem normalized_sumsq (axis : Vec3 ℝ)
    (hax : axis 0 ^ 2 + axis 1 ^ 2 + axis 2 ^ 2 ≠ 0) :
    (axis 0 / norm3 axis) ^ 2 + (axis 1 / norm3 axis) ^ 2
      + (axis 2 / norm3 axis) ^ 2 = 1 := by
  have hnn : (0:ℝ) ≤ axis 0 ^ 2 + axis 1 ^ 2 + axis 2 ^ 2 := by positivity
  have hpos : (0:ℝ) < axis 0 ^ 2 + axis 1 ^ 2 + axis 2 ^ 2 :=
    lt_of_le_of_ne hnn (Ne.symm hax)
  have hne : norm3 axis ≠ 0 := by
    rw [norm3]
    exact Real.sqrt_ne_zero'.mpr hpos
  have hsq : norm3 axis ^ 2 = axis 0 ^ 2 + axis 1 ^ 2 + axis 2 ^ 2 := by
    rw [norm3]
    exact Real.sq_sqrt hnn
  field_simp
  linarith [hsq]

theorem rotMat_neg (theta : ℝ) (u : Vec3 ℝ) :
    rotMat (-theta) u
      = quatToMat3 (Real.cos (theta / 2)) (-(u 0 * Real.sin (theta / 2)))
          (-(u 1 * Real.sin (theta / 2)))
          (-(u 2 * Real.sin (theta / 2))) := by
  rw [rotMat, neg_div, Real.cos_neg, Real.sin_neg]
  simp only [mul_neg]

theorem rotMat_neg_mul_self (theta : ℝ) (u : Vec3 ℝ)
    (husq : u 0 ^ 2 + u 1 ^ 2 + u 2 ^ 2 = 1) :
    rotMat (-theta) u * rotMat theta u = 1 := by
  rw [rotMat_neg, rotMat, quat_conj_mul]
  have hsc := Real.sin_sq_add_cos_sq (theta / 2)
  have h1 : Real.cos (theta / 2) ^ 2 + (u 0 * Real.sin (theta / 2)) ^ 2
      + (u 1 * Real.sin (theta / 2)) ^ 2
      + (u 2 * Real.sin (theta / 2)) ^ 2 = 1 := by
    linear_combination Real.sin (theta / 2) ^ 2 * husq + hsc
  rw [h1]
  simp

/-- Engine RotateWXYZ on a unit axis with a nonzero angle, in post-multiply
mode: the current matrix is multiplied on the left by the lifted
quaternion-derived rotation matrix. -/
theorem rotateWXYZ_unit (T : VTKTransform ℝ) (angle x y z : ℝ)
    (hpre : T.preMultiply = false) (hangle : angle ≠ 0)
    (hunit : x ^ 2 + y ^ 2 + z ^ 2 = 1) :
    T.rotateWXYZ angle x y z
      = T.setMatrixOp
          (rot4 (rotMat (angle * Real.pi / 180) ![x, y, z]) * T.matrix) := by
  have hguard : ¬ (angle = 0 ∨ (x = 0 ∧ y = 0 ∧ z = 0)) := by
    rintro (h | ⟨h0, h1, h2⟩)
    · exact hangle h
    · rw [h0, h1, h2] at hunit
      norm_num at hunit
  have hn1 : norm3 ![x, y, z] = 1 := by
    rw [norm3, show (![x, y, z] : Vec3 ℝ) 0 = x from rfl,
      show (![x, y, z] : Vec3 ℝ) 1 = y from rfl,
      show (![x, y, z] : Vec3 ℝ) 2 = z from rfl, hunit]
    exact Real.sqrt_one
  rw [VTKTransform.rotateWXYZ, if_neg hguard]
  simp only [hn1, div_one, VTKTransform.applyConcat]
  rw [if_neg (show ¬T.preMultiply = true by simp [hpre])]
  rfl

/-- Round-trip of two corrective rotations whose linear parts are mutually
inverse: the four concatenated elementary matrices collapse to the original
matrix. -/
theorem rotate_roundtrip_matrix (R R' : Mat3 ℝ) (q : Vec3 ℝ) (M : Mat4 ℝ)
    (hRR : R' * R = 1) :
    trans4 (q - R'.mulVec q)
      * (rot4 R' * (trans4 (q - R.mulVec q) * (rot4 R * M))) = M := by
  have h1 : rot4 R' * (trans4 (q - R.mulVec q) * (rot4 R * M))
      = trans4 (R'.mulVec (q - R.mulVec q)) * (rot4 R' * (rot4 R * M)) := by
    rw [← mul_assoc, rot4_mul_trans4, mul_assoc]
  have hv : (q - R'.mulVec q) + R'.mulVec (q - R.mulVec q) = 0 := by
    rw [Matrix.mulVec_sub, Matrix.mulVec_mulVec, hRR, Matrix.one_mulVec]
    abel
  rw [h1, ← mul_assoc, trans4_mul, hv, trans4_zero, one_mul, ← mul_assoc,
    rot4_mul, hRR, rot4_one, one_mul]

set_option maxHeartbeats 1600000 in
/-- Characterization of LinearTransform.rotate for a nonzero angle in
degrees and a nonzero axis, starting from post-multiply mode: the matrix is
multiplied on the left by the lifted quaternion rotation and then by the
corrective translation that moves the position to its rotated-around-the-
pivot target; no other field changes. -/
theorem rotate_eq (t : LinearTransform ℝ) (angle : ℝ) (axis point : Vec3 ℝ)
    (hpre : t.T.preMultiply = false)
    (hax : axis 0 ^ 2 + axis 1 ^ 2 + axis 2 ^ 2 ≠ 0)
    (hangle : angle ≠ 0) :
    t.rotate angle axis point false
      = { t with
          T := t.T.setMatrixOp
              (trans4 (point - (rotMat (angle * Real.pi / 180)
                  (fun i => axis i / norm3 axis)).mulVec point)
                * (rot4 (rotMat (angle * Real.pi / 180)
                    (fun i => axis i / norm3 axis)) * t.T.matrix)) } := by
  have husq := normalized_sumsq axis hax
  have hE := rotateWXYZ_unit t.T angle (axis 0 / norm3 axis)
    (axis 1 / norm3 axis) (axis 2 / norm3 axis) hpre hangle husq
  have hveta : (![axis 0 / norm3 axis, axis 1 / norm3 axis,
      axis 2 / norm3 axis] : Vec3 ℝ) = (fun i => axis i / norm3 axis) :=
    vec3_eta (fun i => axis i / norm3 axis)
  simp only [LinearTransform.rotate, Bool.false_eq_true, if_false]
  rw [hE, hveta, pyR_eq_quatToMat3]
  simp only [neg_mul, neg_neg]
  simp only [VTKTransform.translateOp, VTKTransform.applyConcat,
    VTKTransform.setMatrixOp, VTKTransform.getPosition]
  rw [if_neg (show ¬t.T.preMultiply = true by simp [hpre])]
  rw [matPos_rot4_mul]
  rw [Matrix.mulVec_sub]
  rw [show quatToMat3 (Real.cos (angle * Real.pi / 180 / 2))
      (axis 0 / norm3 axis * Real.sin (angle * Real.pi / 180 / 2))
      (axis 1 / norm3 axis * Real.sin (angle * Real.pi / 180 / 2))
      (axis 2 / norm3 axis * Real.sin (angle * Real.pi / 180 / 2))
    = rotMat (angle * Real.pi / 180) (fun i => axis i / norm3 axis)
    from rfl]
  have hAB : Matrix.mulVec (rotMat (angle * Real.pi / 180)
        (fun i => axis i / norm3 axis)) (matPos t.T.matrix)
      - Matrix.mulVec (rotMat (angle * Real.pi / 180)
        (fun i => axis i / norm3 axis)) point
      + point
      - Matrix.mulVec (rotMat (angle * Real.pi / 180)
        (fun i => axis i / norm3 axis)) (matPos t.T.matrix)
      = point - Matrix.mulVec (rotMat (angle * Real.pi / 180)
        (fun i => axis i / norm3 axis)) point := by abel
  rw [hAB]

theorem mat3_one_lit : (!![1,0,0; 0,1,0; 0,0,1] : Mat3 K) = 1 := by
  ext i j
  fin_cases i <;> fin_cases j <;>
    simp [Matrix.one_apply, Matrix.vecHead, Matrix.vecTail]

/-- LinearTransform.rotate with a zero angle leaves the transform unchanged
(the engine skips the rotation and the corrective translation is by the zero
vector). -/
theorem rotate_zero (t : LinearTransform ℝ) (axis point : Vec3 ℝ)
    (hpre : t.T.preMultiply = false) :
    t.rotate 0 axis point false = t := by
  simp only [LinearTransform.rotate, Bool.false_eq_true, if_false]
  rw [show VTKTransform.rotateWXYZ t.T 0 (axis 0 / norm3 axis)
      (axis 1 / norm3 axis) (axis 2 / norm3 axis) = t.T from by
    rw [VTKTransform.rotateWXYZ, if_pos (Or.inl rfl)]]
  rw [show (0:ℝ) * Real.pi / 180 / 2 = 0 from by ring]
  rw [Real.cos_zero, Real.sin_zero]
  simp only [mul_zero, zero_mul, one_mul, mul_one, add_zero, sub_zero]
  rw [mat3_one_lit, Matrix.one_mulVec]
  simp only [VTKTransform.translateOp, VTKTransform.applyConcat]
  rw [if_neg (show ¬t.T.preMultiply = true by simp [hpre])]
  rw [show t.T.getPosition - point + point - t.T.getPosition = 0 from by
    abel]
  rw [trans4_zero, one_mul]

/-- C2: for every transform state in post-multiply mode (the only mode the
class ever leaves active), every angle and every nonzero axis and pivot
point, rotate(angle, axis, point) followed by rotate(-angle, axis, point)
restores the whole transform state, position and orientation included. -/
theorem claim_c2 (t : LinearTransform ℝ) (angle : ℝ) (axis point : Vec3 ℝ)
    (hpre : t.T.preMultiply = false)
    (hax : axis 0 ^ 2 + axis 1 ^ 2 + axis 2 ^ 2 ≠ 0) :
    (t.rotate angle axis point false).rotate (-angle) axis point false
      = t := by
  by_cases hangle : angle = 0
  · subst hangle
    rw [neg_zero, rotate_zero _ _ _ hpre, rotate_zero _ _ _ hpre]
  · have husq := normalized_sumsq axis hax
    rw [rotate_eq t angle axis point hpre hax hangle]
    rw [rotate_eq
      { t with
        T := t.T.setMatrixOp
            (trans4 (point - Matrix.mulVec (rotMat (angle * Real.pi / 180)
                (fun i => axis i / norm3 axis)) point)
              * (rot4 (rotMat (angle * Real.pi / 180)
                  (fun i => axis i / norm3 axis)) * t.T.matrix)) }
      (-angle) axis point hpre hax (neg_ne_zero.mpr hangle)]
    simp only [VTKTransform.setMatrixOp]
    rw [show (-angle) * Real.pi / 180 = -(angle * Real.pi / 180) from by
      ring]
    rw [rotate_roundtrip_matrix _ _ _ _
      (rotMat_neg_mul_self (angle * Real.pi / 180)
        (fun i => axis i / norm3 axis) husq)]

/-- Witness for C2: a 90-degree rotation about the z-axis through the pivot
(1,2,0) followed by the opposite rotation restores the identity
transform. -/
theorem claim_c2_witness :
    ((LinearTransform.init : LinearTransform ℝ).rotate 90 ![0,0,1] ![1,2,0]
        false).rotate (-90) ![0,0,1] ![1,2,0] false
      = LinearTransform.init :=
  claim_c2 LinearTransform.init 90 ![0,0,1] ![1,2,0] rfl
    (by norm_num [Matrix.vecHead, Matrix.vecTail])

/-- Witness for C1's evaluation: the concrete run of the code on the spec's
example input. -/
theorem claim_c1_code_bug_witness :
    ((LinearTransform.init : LinearTransform ℝ).scale ![2,2,2]
        (.pivot ![1,0,0])).apply_to_point ![2,0,0] = ![4,0,0] :=
  claim_c1_code_bug.1
